import Mathlib

/-! payment-sdk-go: request signing, nonce generation and order polling

A shallow embedding of `client.go` / `types.go`:

* `generateSign`     (client.go 296-320)
* `generateNonce`    (client.go 322-330)
* `setAuthHeaders`   (client.go 277-294)
* `PollOrderStatus`  (client.go 332-375)

Go strings are sequences of bytes, a Go map is a list of entries with distinct keys
whose order stands for one (arbitrary) iteration order, and the effects of polling
(sleeping, querying, callbacks) are recorded in an explicit trace.
-/

namespace PaymentSDK

/-! ## Strings -/

/-- Go `string`: an immutable sequence of bytes. -/
abbrev Str := List Nat

/-- The bytes (UTF-8) of a Go string literal. -/
def lit (s : String) : Str := s.toUTF8.data.toList.map UInt8.toNat

/-- Go `a < b` on strings: byte-wise lexicographic comparison. -/
def strLess : Str → Str → Bool
  | _, [] => false
  | [], _ :: _ => true
  | a :: as, b :: bs => if a < b then true else if b < a then false else strLess as bs

/-- The order `sort.Strings` sorts into: `a` may stand before `b` when `b < a` is false. -/
def strLE (a b : Str) : Prop := strLess b a = false

instance strLE_decidable : DecidableRel strLE := fun a b =>
  inferInstanceAs (Decidable (strLess b a = false))

/-- `sort.Strings(x)`: the keys in ascending byte-wise order. -/
def sortStrings (x : List Str) : List Str := x.insertionSort strLE

/-- `strings.Join(elems, sep)`. -/
def stringsJoin : List Str → Str → Str
  | [], _ => []
  | [a], _ => a
  | a :: b :: rest, sep => a ++ sep ++ stringsJoin (b :: rest) sep

/-- Decimal rendering of a signed integer: `strconv.FormatInt(i, 10)` and the verb `%d`. -/
def formatInt (i : Int) : Str :=
  if i < 0 then lit "-" ++ (Nat.toDigits 10 i.natAbs).map Char.toNat
  else (Nat.toDigits 10 i.natAbs).map Char.toNat

/-! ## Maps -/

/-- Go `map[string]T`, as its entries in one iteration order. A map value that the
program can build has pairwise distinct keys (`NodupKeys`). -/
abbrev GoMap (α : Type) := List (Str × α)

/-- Go `map[string]string`. -/
abbrev Params := GoMap Str

/-- Keys are pairwise distinct: the list is a well-formed Go map. -/
def NodupKeys {α : Type} (m : GoMap α) : Prop := (m.map Prod.fst).Nodup

instance NodupKeys_decidable {α : Type} (m : GoMap α) : Decidable (NodupKeys m) :=
  inferInstanceAs (Decidable (m.map Prod.fst).Nodup)

/-- `v, ok := m[k]`. -/
def mapFind {α : Type} (m : GoMap α) (k : Str) : Option α := List.lookup k m

/-- `m[k]` on a `map[string]string`: the empty string when `k` is absent. -/
def mapGet (m : Params) (k : Str) : Str := (mapFind m k).getD []

/-- `m[k] = v`: overwrite the entry of `k` when present, add a new entry otherwise. -/
def mapSet {α : Type} : GoMap α → Str → α → GoMap α
  | [], k, v => [(k, v)]
  | (k', v') :: rest, k, v =>
    if k' = k then (k, v) :: rest else (k', v') :: mapSet rest k v

/-! ## Client and signing -/

/-- Client: the fields of `Client` that the modelled functions read. -/
structure Client where
  baseURL : Str
  appID : Str
  appSecret : Str
deriving DecidableEq, Repr

/-- The first loop of `generateSign`: copy every entry whose key is not `"sign"` and
whose value is not empty into `paramsCopy`. -/
def copyParams (params : Params) : Params :=
  params.foldl
    (fun paramsCopy kv =>
      if kv.1 ≠ lit "sign" ∧ kv.2 ≠ [] then mapSet paramsCopy kv.1 kv.2 else paramsCopy)
    []

/-- The string that `generateSign` feeds to the HMAC (`signString`). -/
def signString (params : Params) : Str :=
  let paramsCopy := copyParams params
  let keys := sortStrings (paramsCopy.map Prod.fst)
  let parts := keys.map (fun k => k ++ lit "=" ++ mapGet paramsCopy k)
  stringsJoin parts (lit "&")

/-- `generateSign`: `hex.EncodeToString(HMAC-SHA256(appSecret, signString))`.
`hmacSHA256 key msg` and `hexEncode` stand for the Go standard library functions. -/
def generateSign (hmacSHA256 : Str → Str → Str) (hexEncode : Str → Str)
    (c : Client) (params : Params) : Str :=
  hexEncode (hmacSHA256 c.appSecret (signString params))

/-! ### The canonical string, as the specification words it -/

/-- An entry takes part in the signature when its key is not `"sign"` and its value is
not empty. -/
def signed (kv : Str × Str) : Bool := decide (kv.1 ≠ lit "sign") && decide (kv.2 ≠ [])

/-- An entry rendered as `key=value`. -/
def renderPair (kv : Str × Str) : Str := kv.1 ++ lit "=" ++ kv.2

/-- Entries ordered by ascending key. -/
def sortByKey (es : Params) : Params := es.insertionSort (fun a b => strLE a.1 b.1)

/-- The canonical string of the specification: the signed entries, in ascending
byte-wise order of key, each rendered `key=value`, joined with `&`. -/
def canonicalString (params : Params) : Str :=
  stringsJoin ((sortByKey (params.filter signed)).map renderPair) (lit "&")

/-! ## Nonce and authentication headers -/

/-- The constant `charset` of `generateNonce`. -/
def charset : Str := lit "abcdefghijklmnopqrstuvwxyzABCDEFGHIJKLMNOPQRSTUVWXYZ0123456789"

/-- The allocation limit `maxAlloc` of the Go runtime, in bytes: `1 << 48` on the
64-bit platforms (linux/amd64, linux/arm64). `make([]byte, n)` panics with
`makeslice: len out of range` when `n` is negative or above it. -/
def maxAlloc : Int := 281474976710656

/-- `generateNonce(length)`. `draws i` is the value returned by the `i`-th call of
`rand.Intn(len(charset))`; `none` is a run-time panic: `make([]byte, length)` with a
negative length or a length above `maxAlloc`, or an index outside `charset`. (Running
out of memory below that limit is a fatal error of the machine, not a panic of the
program, and is not part of the model.) -/
def generateNonce (draws : Nat → Nat) (length : Int) : Option Str :=
  if length < 0 ∨ maxAlloc < length then none
  else (List.range length.toNat).mapM (fun i => charset[draws i]?)

/-- One of the characters `a-z`, `A-Z`, `0-9`. -/
def isAlnum (b : Nat) : Prop :=
  (97 ≤ b ∧ b ≤ 122) ∨ (65 ≤ b ∧ b ≤ 90) ∨ (48 ≤ b ∧ b ≤ 57)

instance isAlnum_decidable (b : Nat) : Decidable (isAlnum b) :=
  inferInstanceAs (Decidable ((97 ≤ b ∧ b ≤ 122) ∨ (65 ≤ b ∧ b ≤ 90) ∨ (48 ≤ b ∧ b ≤ 57)))

/-- Go `http.Header`: `map[string][]string`. -/
abbrev Header := GoMap (List Str)

/-- `h.Set(key, value)`; the four keys used here are already in canonical form. -/
def headerSet (h : Header) (key value : Str) : Header := mapSet h key [value]

/-- `h.Get(key)`: the first value stored under `key`, or the empty string. -/
def headerGet (h : Header) (key : Str) : Str :=
  match mapFind h key with
  | some (v :: _) => v
  | _ => []

/-- The part of `http.Request` that a client call builds. -/
structure Request where
  Method : Str
  URL : Str
  Header : Header
  Body : Str
deriving DecidableEq, Repr

/-- `setAuthHeaders(req, body)`. `now` is `time.Now().Unix()`, `draws` the random source;
`none` is a panic inside `generateNonce`. -/
def setAuthHeaders (hmacSHA256 : Str → Str → Str) (hexEncode : Str → Str)
    (now : Int) (draws : Nat → Nat) (c : Client) (req : Request) (_body : Str) :
    Option Request :=
  let timestamp := formatInt now
  match generateNonce draws 16 with
  | none => none
  | some nonce =>
    let params : Params :=
      [(lit "appId", c.appID), (lit "timestamp", timestamp), (lit "nonce", nonce)]
    let sign := generateSign hmacSHA256 hexEncode c params
    let h := headerSet req.Header (lit "X-App-Id") c.appID
    let h := headerSet h (lit "X-Timestamp") timestamp
    let h := headerSet h (lit "X-Nonce") nonce
    let h := headerSet h (lit "X-Sign") sign
    some { req with Header := h }

/-! ## Order status and polling -/

/-- OrderStatusData (types.go 43-56); `Amount` is the bit pattern of the `float64`. -/
structure OrderStatusData where
  OrderNo : Str
  Subject : Str
  Amount : Nat
  Status : Int
  PayWay : Str
  TradeNo : Str
  PayTime : Int
  OrderType : Str
  UserID : Str
  Extra : Str
  CreatedAt : Str
  UpdatedAt : Str
deriving DecidableEq, Repr

def OrderStatusNotPaid : Int := 1
def OrderStatusPaidSuccess : Int := 2
def OrderStatusClosed : Int := 201

/-- `time.Second`, in nanoseconds. -/
def timeSecond : Int := 1000000000

/-- PollOptions (types.go 94-99). `OnCheck` / `OnError` tell whether the callback is
non-nil; a call of a callback is recorded in the trace. -/
structure PollOptions where
  Interval : Int
  MaxRetries : Int
  OnCheck : Bool
  OnError : Bool
deriving DecidableEq, Repr

/-- What a run of `PollOrderStatus` does to the outside world, in order. -/
inductive Event where
  | sleep (d : Int)
  | query (orderNo : Str)
  | onCheck (retry : Int) (status : OrderStatusData)
  | onError (retry : Int) (err : Str)
deriving DecidableEq, Repr

abbrev Trace := List Event

/-- Number of `QueryOrder` calls recorded in a trace. -/
def queryCount (t : Trace) : Nat :=
  t.countP (fun e => match e with | .query _ => true | _ => false)

/-- The calls of the check callback recorded in a trace, in order. -/
def checkCalls (t : Trace) : List (Int × OrderStatusData) :=
  t.filterMap (fun e => match e with | .onCheck i s => some (i, s) | _ => none)

/-- The calls of the error callback recorded in a trace, in order. -/
def errorCalls (t : Trace) : List (Int × Str) :=
  t.filterMap (fun e => match e with | .onError i err => some (i, err) | _ => none)

/-- A query stub: `stub j` is what the `(j+1)`-th call of `QueryOrder` returns, an error
message or a status record. -/
abbrev QueryStub := Nat → Except Str OrderStatusData

/-- `c.QueryOrder(orderNo)` against a stub: the call is recorded, and its result is
the next one of the stub. -/
def QueryOrder (stub : QueryStub) (orderNo : Str) (t : Trace) :
    Except Str OrderStatusData × Trace :=
  (stub (queryCount t), t ++ [Event.query orderNo])

/-- `fmt.Errorf("订单已关闭")`. -/
def closedError : Str := lit "订单已关闭"

/-- `fmt.Errorf("查询超时，已达到最大重试次数 %d", maxRetries)`. -/
def timeoutError (maxRetries : Int) : Str :=
  lit "查询超时，已达到最大重试次数 " ++ formatInt maxRetries

/-- The value pair `(*OrderStatusData, error)` that `PollOrderStatus` returns. -/
abbrev PollResult := Option OrderStatusData × Option Str

/-- The loop `for i := ...; i < opts.MaxRetries; i++` of `PollOrderStatus`, entered with
loop variable `i`; `remaining` is the number of values `i, i+1, ...` still below
`opts.MaxRetries`, so `0` is the exit of the loop into the timeout return. -/
def pollLoop (stub : QueryStub) (orderNo : Str) (opts : PollOptions) :
    Nat → Int → Trace → PollResult × Trace
  | 0, _, t => ((none, some (timeoutError opts.MaxRetries)), t)
  | remaining + 1, i, t =>
    let t := t ++ [Event.sleep opts.Interval]
    match QueryOrder stub orderNo t with
    | (.error err, t) =>
      let t := if opts.OnError then t ++ [Event.onError (i + 1) err] else t
      pollLoop stub orderNo opts remaining (i + 1) t
    | (.ok status, t) =>
      let t := if opts.OnCheck then t ++ [Event.onCheck (i + 1) status] else t
      if status.Status = OrderStatusPaidSuccess then ((some status, none), t)
      else if status.Status = OrderStatusClosed then ((some status, some closedError), t)
      else pollLoop stub orderNo opts remaining (i + 1) t

/-- The options after the defaulting at the head of `PollOrderStatus`. -/
def effectiveOptions (opts : Option PollOptions) : PollOptions :=
  let opts : PollOptions := match opts with
    | none =>
      { Interval := 5 * timeSecond, MaxRetries := 12, OnCheck := false, OnError := false }
    | some o => o
  let opts := if opts.Interval = 0 then { opts with Interval := 5 * timeSecond } else opts
  if opts.MaxRetries = 0 then { opts with MaxRetries := 12 } else opts

/-- `PollOrderStatus(orderNo, opts)`: the returned pair and the trace of the run. -/
def PollOrderStatus (stub : QueryStub) (orderNo : Str) (opts : Option PollOptions) :
    PollResult × Trace :=
  let opts := effectiveOptions opts
  pollLoop stub orderNo opts opts.MaxRetries.toNat 0 []

/-- A status that ends polling: `PaidSuccess` or `Closed`. -/
def isTerminal (s : OrderStatusData) : Prop :=
  s.Status = OrderStatusPaidSuccess ∨ s.Status = OrderStatusClosed

instance isTerminal_decidable (s : OrderStatusData) : Decidable (isTerminal s) :=
  inferInstanceAs
    (Decidable (s.Status = OrderStatusPaidSuccess ∨ s.Status = OrderStatusClosed))

/-- A query result after which polling goes on: a query error, or a status other than
`PaidSuccess` and `Closed`. -/
def nonTerminal (r : Except Str OrderStatusData) : Prop :=
  match r with
  | .error _ => True
  | .ok s => ¬ isTerminal s

instance nonTerminal_decidable (r : Except Str OrderStatusData) : Decidable (nonTerminal r) :=
  match r with
  | .error _ => isTrue trivial
  | .ok s => inferInstanceAs (Decidable (¬ isTerminal s))

/-- The check-callback calls that queries `a, ..., a + n - 1` give rise to: one call
`(j + 1, status)` for every query `j` that returned a status record, none for a query
that failed. -/
def expectedChecks (stub : QueryStub) (a n : Nat) : List (Int × OrderStatusData) :=
  (List.range' a n).filterMap
    (fun j => match stub j with
      | .ok s => some ((j : Int) + 1, s)
      | .error _ => none)

/-! ## Sample data -/

/-- A status record of order `X1` with the given status code. -/
def sampleStatus (st : Int) : OrderStatusData :=
  { OrderNo := lit "X1", Subject := lit "VIP", Amount := 0, Status := st,
    PayWay := lit "alipay", TradeNo := [], PayTime := 0, OrderType := lit "vip",
    UserID := [], Extra := [], CreatedAt := [], UpdatedAt := [] }

/-- A stub that always answers `NotPaid`. -/
def stubNotPaid : QueryStub := fun _ => .ok (sampleStatus OrderStatusNotPaid)

/-- A stub that answers `NotPaid`, `NotPaid`, then `PaidSuccess`. -/
def stubPaidThird : QueryStub := fun j =>
  if j < 2 then .ok (sampleStatus OrderStatusNotPaid)
  else .ok (sampleStatus OrderStatusPaidSuccess)

/-- A stub whose first query fails and whose later queries answer `Closed`. -/
def stubErrorThenClosed : QueryStub := fun j =>
  if j = 0 then .error (lit "connection refused")
  else .ok (sampleStatus OrderStatusClosed)

/-- Poll options with both callbacks set. -/
def sampleOptions (maxRetries : Int) : PollOptions :=
  { Interval := 0, MaxRetries := maxRetries, OnCheck := true, OnError := true }

def sampleClient : Client :=
  { baseURL := lit "https://api.example.com", appID := lit "your-app-id",
    appSecret := lit "your-app-secret" }

def sampleRequest : Request :=
  { Method := lit "GET", URL := lit "https://api.example.com/api/v2/payment/query/X1",
    Header := [], Body := [] }

/-- A stand-in keyed function for evaluating examples (not HMAC-SHA256). -/
def sampleMac (key msg : Str) : Str := key ++ lit "|" ++ msg

/-- A source of draws that stays inside the charset. -/
def sampleDraws : Nat → Nat := fun i => (i * 7) % 62

/-! ## The byte-wise order is a linear order -/

theorem strLess_asymm : ∀ a b : Str, strLess a b = true → strLess b a = false
  | _, [], h => by simp [strLess] at h
  | [], _ :: _, _ => by simp [strLess]
  | a :: as, b :: bs, h => by
    simp only [strLess] at h ⊢
    split_ifs at h ⊢ <;> first | omega | rfl | exact strLess_asymm as bs h

theorem strLE_total (a b : Str) : strLE a b ∨ strLE b a := by
  unfold strLE
  cases h : strLess b a
  · exact Or.inl rfl
  · exact Or.inr (strLess_asymm b a h)

theorem strLE_antisymm : ∀ a b : Str, strLE a b → strLE b a → a = b
  | [], [], _, _ => rfl
  | [], _ :: _, _, h => by simp [strLE, strLess] at h
  | _ :: _, [], h, _ => by simp [strLE, strLess] at h
  | a :: as, b :: bs, h1, h2 => by
    simp only [strLE, strLess] at h1 h2
    split_ifs at h1 h2
    have hab : a = b := by omega
    subst hab
    rw [strLE_antisymm as bs h1 h2]

theorem strLE_trans : ∀ a b c : Str, strLE a b → strLE b c → strLE a c
  | [], _, _, _, _ => by cases ‹Str› <;> simp [strLE, strLess]
  | _ :: _, [], _, h, _ => by simp [strLE, strLess] at h
  | _ :: _, _ :: _, [], _, h => by simp [strLE, strLess] at h
  | a :: as, b :: bs, c :: cs, h1, h2 => by
    simp only [strLE, strLess] at h1 h2 ⊢
    split_ifs at h1 h2 ⊢ <;> first | omega | rfl | exact strLE_trans as bs cs h1 h2

/-- Distinct keys in sorted position are strictly ascending. -/
theorem strLess_of_strLE_of_ne (a b : Str) (h : strLE a b) (hne : a ≠ b) :
    strLess a b = true := by
  cases hb : strLess a b
  · exact absurd (strLE_antisymm a b h hb) hne
  · rfl

/-- `sort.Strings` returns its argument in ascending order. -/
theorem sortStrings_sorted (xs : List Str) : (sortStrings xs).Pairwise strLE := by
  haveI : IsTotal Str strLE := ⟨strLE_total⟩
  haveI : IsTrans Str strLE := ⟨strLE_trans⟩
  exact List.sorted_insertionSort strLE xs

/-- An ascending list is determined by its elements. -/
theorem sorted_unique (xs ys : List Str) (h : xs.Perm ys) (hx : xs.Pairwise strLE)
    (hy : ys.Pairwise strLE) : xs = ys := by
  haveI : IsAntisymm Str strLE := ⟨strLE_antisymm⟩
  exact List.eq_of_perm_of_sorted h hx hy

/-! ## Maps: assignment and lookup -/

theorem mapSet_of_not_mem {α : Type} (m : GoMap α) (k : Str) (v : α)
    (h : k ∉ m.map Prod.fst) : mapSet m k v = m ++ [(k, v)] := by
  induction m with
  | nil => rfl
  | cons e rest ih =>
    obtain ⟨k', v'⟩ := e
    simp only [List.map_cons, List.mem_cons, not_or] at h
    simp only [mapSet, if_neg (Ne.symm h.1), ih h.2, List.cons_append]

theorem mapFind_mapSet_self {α : Type} (m : GoMap α) (k : Str) (v : α) :
    mapFind (mapSet m k v) k = some v := by
  induction m with
  | nil => simp [mapSet, mapFind, List.lookup]
  | cons e rest ih =>
    obtain ⟨k', v'⟩ := e
    by_cases hk : k' = k
    · simp [mapSet, hk, mapFind, List.lookup]
    · have hb : (k == k') = false := by simpa using Ne.symm hk
      simpa [mapSet, hk, mapFind, List.lookup, hb] using ih

theorem mapFind_mapSet_other {α : Type} (m : GoMap α) (k k' : Str) (v : α) (h : k' ≠ k) :
    mapFind (mapSet m k v) k' = mapFind m k' := by
  induction m with
  | nil =>
    have hb : (k' == k) = false := by simpa using h
    simp [mapSet, mapFind, List.lookup, hb]
  | cons e rest ih =>
    obtain ⟨k0, v0⟩ := e
    by_cases hk : k0 = k
    · subst hk
      have hb : (k' == k0) = false := by simpa using h
      simp [mapSet, mapFind, List.lookup, hb]
    · by_cases hk' : k' = k0
      · subst hk'
        simp [mapSet, hk, mapFind, List.lookup]
      · have hb : (k' == k0) = false := by simpa using hk'
        simpa [mapSet, hk, mapFind, List.lookup, hb] using ih

theorem mapGet_of_mem (m : Params) (hm : NodupKeys m) (e : Str × Str) (he : e ∈ m) :
    mapGet m e.1 = e.2 := by
  induction m with
  | nil => cases he
  | cons x rest ih =>
    obtain ⟨k', v'⟩ := x
    simp only [NodupKeys, List.map_cons, List.nodup_cons] at hm
    rcases List.mem_cons.1 he with rfl | h
    · simp [mapGet, mapFind, List.lookup]
    · have hne : e.1 ≠ k' := fun hc => hm.1 (hc ▸ List.mem_map_of_mem Prod.fst h)
      have hb : (e.1 == k') = false := by simpa using hne
      have := ih hm.2 h
      simpa [mapGet, mapFind, List.lookup, hb] using this

theorem nodupKeys_filter (m : Params) (p : Str × Str → Bool) (hm : NodupKeys m) :
    NodupKeys (m.filter p) :=
  List.Nodup.sublist (List.Sublist.map Prod.fst (List.filter_sublist m)) hm

theorem nodupKeys_perm {m₁ m₂ : Params} (h : m₁.Perm m₂) (hm : NodupKeys m₁) :
    NodupKeys m₂ :=
  ((h.map Prod.fst).nodup_iff).1 hm

/-- The copy loop, started from any `acc` whose keys are disjoint from those of `m`. -/
theorem copy_foldl (m : Params) (hm : NodupKeys m) (acc : Params)
    (hd : ∀ k ∈ m.map Prod.fst, k ∉ acc.map Prod.fst) :
    m.foldl
      (fun paramsCopy kv =>
        if kv.1 ≠ lit "sign" ∧ kv.2 ≠ [] then mapSet paramsCopy kv.1 kv.2 else paramsCopy)
      acc = acc ++ m.filter signed := by
  induction m generalizing acc with
  | nil => simp
  | cons e rest ih =>
    simp only [NodupKeys, List.map_cons, List.nodup_cons] at hm
    have hrest : ∀ k ∈ rest.map Prod.fst, k ∉ acc.map Prod.fst := fun k hk =>
      hd k (List.mem_cons_of_mem _ hk)
    have he : e.1 ∉ acc.map Prod.fst := hd e.1 (List.mem_cons_self _ _)
    rw [List.foldl_cons]
    by_cases hs : e.1 ≠ lit "sign" ∧ e.2 ≠ []
    · have hsig : signed e = true := by simp [signed, hs.1, hs.2]
      rw [if_pos hs, mapSet_of_not_mem acc e.1 e.2 he, ih hm.2, List.filter_cons_of_pos hsig]
      · simp
      · intro k hk
        simp only [List.map_append, List.map_cons, List.map_nil, List.mem_append,
          List.mem_singleton, not_or]
        exact ⟨hrest k hk, fun hc => hm.1 (hc ▸ hk)⟩
    · have hsig : ¬ signed e = true := by
        simp only [signed, Bool.and_eq_true, decide_eq_true_eq]; exact hs
      rw [if_neg hs, ih hm.2 acc hrest, List.filter_cons_of_neg hsig]

/-- On a well-formed map the copy loop keeps exactly the signed entries, in order. -/
theorem copyParams_eq_filter (m : Params) (hm : NodupKeys m) :
    copyParams m = m.filter signed := by
  unfold copyParams
  rw [copy_foldl m hm [] (by simp)]
  rfl

/-- An entry with an empty value is skipped by the copy loop. -/
theorem copyParams_cons_empty (m : Params) (k : Str) :
    copyParams ((k, []) :: m) = copyParams m := by
  simp [copyParams]

/-! ## Sorting -/

theorem sortByKey_perm (es : Params) : (sortByKey es).Perm es :=
  List.perm_insertionSort _ es

theorem sortByKey_sorted (es : Params) :
    (sortByKey es).Pairwise (fun a b => strLE a.1 b.1) := by
  haveI : IsTotal (Str × Str) (fun a b => strLE a.1 b.1) :=
    ⟨fun a b => strLE_total a.1 b.1⟩
  haveI : IsTrans (Str × Str) (fun a b => strLE a.1 b.1) :=
    ⟨fun a b c => strLE_trans a.1 b.1 c.1⟩
  exact List.sorted_insertionSort (fun a b : Str × Str => strLE a.1 b.1) es

/-- With distinct keys the sorted entries are strictly ascending by key. -/
theorem sortByKey_strict (es : Params) (hes : NodupKeys es) :
    (sortByKey es).Pairwise (fun a b => strLess a.1 b.1 = true) := by
  have hnd : NodupKeys (sortByKey es) := nodupKeys_perm (sortByKey_perm es).symm hes
  have hne : (sortByKey es).Pairwise (fun a b => a.1 ≠ b.1) := List.pairwise_map.1 hnd
  exact ((sortByKey_sorted es).and hne).imp
    (fun h => strLess_of_strLE_of_ne _ _ h.1 h.2)

/-- Sorting the entries by key and reading off the keys is sorting the keys. -/
theorem sortByKey_keys (es : Params) :
    (sortByKey es).map Prod.fst = sortStrings (es.map Prod.fst) := by
  apply sorted_unique
  · exact ((sortByKey_perm es).map Prod.fst).trans
      (List.perm_insertionSort strLE (es.map Prod.fst)).symm
  · exact List.pairwise_map.2 (sortByKey_sorted es)
  · exact sortStrings_sorted _

/-- Two permutations of one key list sort to the same list. -/
theorem sortStrings_perm (xs ys : List Str) (h : xs.Perm ys) :
    sortStrings xs = sortStrings ys := by
  apply sorted_unique
  · exact (List.perm_insertionSort strLE xs).trans
      (h.trans (List.perm_insertionSort strLE ys).symm)
  · exact sortStrings_sorted _
  · exact sortStrings_sorted _

/-- The parts built by key lookup are the entries rendered in key order. -/
theorem parts_eq_render (es : Params) (hes : NodupKeys es) :
    (sortStrings (es.map Prod.fst)).map (fun k => k ++ lit "=" ++ mapGet es k)
      = (sortByKey es).map renderPair := by
  rw [← sortByKey_keys, List.map_map]
  apply List.map_congr_left
  intro e he
  have hmem : e ∈ es := (sortByKey_perm es).subset he
  simp only [Function.comp, renderPair, mapGet_of_mem es hes e hmem]

theorem signString_eq_canonical (m : Params) (hm : NodupKeys m) :
    signString m = canonicalString m := by
  simp only [signString, canonicalString, copyParams_eq_filter m hm]
  rw [parts_eq_render _ (nodupKeys_filter m signed hm)]

/-- The sorted signed entries do not depend on the iteration order of the map. -/
theorem sortByKey_filter_perm (m₁ m₂ : Params) (hm : NodupKeys m₁) (h : m₁.Perm m₂) :
    sortByKey (m₁.filter signed) = sortByKey (m₂.filter signed) := by
  have h1 := nodupKeys_filter m₁ signed hm
  have h2 := nodupKeys_filter m₂ signed (nodupKeys_perm h hm)
  haveI : IsAntisymm (Str × Str) (fun a b => strLess a.1 b.1 = true) :=
    ⟨fun a b hab hba => by rw [strLess_asymm _ _ hab] at hba; cases hba⟩
  apply List.eq_of_perm_of_sorted (r := fun a b : Str × Str => strLess a.1 b.1 = true)
  · exact (sortByKey_perm _).trans ((h.filter signed).trans (sortByKey_perm _).symm)
  · exact sortByKey_strict _ h1
  · exact sortByKey_strict _ h2

theorem signString_perm (m₁ m₂ : Params) (hm : NodupKeys m₁) (h : m₁.Perm m₂) :
    signString m₁ = signString m₂ := by
  rw [signString_eq_canonical m₁ hm, signString_eq_canonical m₂ (nodupKeys_perm h hm)]
  simp only [canonicalString, sortByKey_filter_perm m₁ m₂ hm h]

theorem signString_cons_empty (m : Params) (k : Str) :
    signString ((k, []) :: m) = signString m := by
  simp only [signString, copyParams_cons_empty]

/-! ## Nonce -/

theorem charset_length : charset.length = 62 := by decide

theorem charset_alnum : ∀ j, j < 62 → ∀ b, charset[j]? = some b → isAlnum b := by
  decide

/-- With every draw inside the charset, the fill loop never panics. -/
theorem nonce_mapM (draws : Nat → Nat) (hd : ∀ i, draws i < 62) (l : List Nat) :
    ∃ s : Str, l.mapM (fun i => charset[draws i]?) = some s ∧ s.length = l.length ∧
      ∀ b ∈ s, isAlnum b := by
  induction l with
  | nil => exact ⟨[], by rw [List.mapM_nil]; rfl, rfl, by simp⟩
  | cons i rest ih =>
    obtain ⟨s, hs, hlen, hall⟩ := ih
    have hlt : draws i < charset.length := by rw [charset_length]; exact hd i
    refine ⟨charset[draws i] :: s, ?_, by simp [hlen], ?_⟩
    · rw [List.mapM_cons, hs, List.getElem?_eq_getElem hlt]; rfl
    · intro b hb
      rcases List.mem_cons.1 hb with rfl | hb
      · exact charset_alnum (draws i) (hd i) _ (List.getElem?_eq_getElem hlt)
      · exact hall b hb

theorem generateNonce_ok (draws : Nat → Nat) (hd : ∀ i, draws i < 62) (length : Int)
    (hl : 0 ≤ length) (hmax : length ≤ maxAlloc) :
    ∃ s : Str, generateNonce draws length = some s ∧ s.length = length.toNat ∧
      ∀ b ∈ s, isAlnum b := by
  obtain ⟨s, hs, hlen, hall⟩ := nonce_mapM draws hd (List.range length.toNat)
  refine ⟨s, ?_, by simpa using hlen, hall⟩
  have hc : ¬ (length < 0 ∨ maxAlloc < length) := by
    rintro (h | h) <;> omega
  simp only [generateNonce, if_neg hc, hs]

/-- A length above the allocation limit makes `make([]byte, length)` panic. -/
theorem generateNonce_too_long (draws : Nat → Nat) (length : Int) (h : maxAlloc < length) :
    generateNonce draws length = none := by
  simp only [generateNonce, if_pos (Or.inr h)]

/-! ## Polling -/

theorem queryCount_append (t u : Trace) : queryCount (t ++ u) = queryCount t + queryCount u := by
  simp [queryCount, List.countP_append]

theorem checkCalls_append (t u : Trace) : checkCalls (t ++ u) = checkCalls t ++ checkCalls u := by
  simp [checkCalls, List.filterMap_append]

theorem errorCalls_append (t u : Trace) : errorCalls (t ++ u) = errorCalls t ++ errorCalls u := by
  simp [errorCalls, List.filterMap_append]

/-- One pass through the loop body on a failed query. -/
theorem pollLoop_error (stub : QueryStub) (orderNo : Str) (opts : PollOptions)
    (r : Nat) (i : Int) (t : Trace) (err : Str) (h : stub (queryCount t) = .error err) :
    pollLoop stub orderNo opts (r + 1) i t =
      pollLoop stub orderNo opts r (i + 1)
        (if opts.OnError then
          t ++ [Event.sleep opts.Interval] ++ [Event.query orderNo] ++ [Event.onError (i + 1) err]
         else t ++ [Event.sleep opts.Interval] ++ [Event.query orderNo]) := by
  have hq : queryCount (t ++ [Event.sleep opts.Interval]) = queryCount t := by
    simp [queryCount]
  simp only [pollLoop, QueryOrder, hq, h]

/-- One pass through the loop body on a query that returned a status. -/
theorem pollLoop_ok (stub : QueryStub) (orderNo : Str) (opts : PollOptions)
    (r : Nat) (i : Int) (t : Trace) (s : OrderStatusData) (h : stub (queryCount t) = .ok s) :
    pollLoop stub orderNo opts (r + 1) i t =
      (let t' := if opts.OnCheck then
          t ++ [Event.sleep opts.Interval] ++ [Event.query orderNo] ++ [Event.onCheck (i + 1) s]
         else t ++ [Event.sleep opts.Interval] ++ [Event.query orderNo]
       if s.Status = OrderStatusPaidSuccess then ((some s, none), t')
       else if s.Status = OrderStatusClosed then ((some s, some closedError), t')
       else pollLoop stub orderNo opts r (i + 1) t') := by
  have hq : queryCount (t ++ [Event.sleep opts.Interval]) = queryCount t := by
    simp [queryCount]
  simp only [pollLoop, QueryOrder, hq, h]

theorem queryCount_step (t : Trace) (d : Int) (orderNo : Str) (b : Bool) (e : Event)
    (he : queryCount [e] = 0) :
    queryCount (if b then t ++ [Event.sleep d] ++ [Event.query orderNo] ++ [e]
      else t ++ [Event.sleep d] ++ [Event.query orderNo]) = queryCount t + 1 := by
  have h1 : queryCount [Event.sleep d] = 0 := rfl
  have h2 : queryCount [Event.query orderNo] = 1 := rfl
  cases b
  · simp only [Bool.false_eq_true, if_false, queryCount_append, h1, h2]
  · simp only [if_true, queryCount_append, he, h1, h2]

/-- While the stub keeps returning non-terminal results the loop uses up all its
remaining attempts, one query each, and ends in the timeout error. -/
theorem pollLoop_exhaust (stub : QueryStub) (orderNo : Str) (opts : PollOptions) :
    ∀ (r : Nat) (i : Int) (t : Trace),
      (∀ j, queryCount t ≤ j → j < queryCount t + r → nonTerminal (stub j)) →
      (pollLoop stub orderNo opts r i t).1 = (none, some (timeoutError opts.MaxRetries)) ∧
      queryCount (pollLoop stub orderNo opts r i t).2 = queryCount t + r := by
  intro r
  induction r with
  | zero => intro i t _; simp [pollLoop]
  | succ r ih =>
    intro i t h
    have h0 := h (queryCount t) (le_refl _) (by omega)
    cases hs : stub (queryCount t) with
    | error err =>
      rw [pollLoop_error stub orderNo opts r i t err hs]
      have hq := queryCount_step t opts.Interval orderNo opts.OnError
        (Event.onError (i + 1) err) rfl
      generalize (if opts.OnError = true then _ else _) = t' at hq ⊢
      have := ih (i + 1) t' (fun j h1 h2 => h j (by omega) (by omega))
      exact ⟨this.1, by omega⟩
    | ok s =>
      rw [hs] at h0
      simp only [nonTerminal, isTerminal, not_or] at h0
      rw [pollLoop_ok stub orderNo opts r i t s hs]
      simp only [if_neg h0.1, if_neg h0.2]
      have hq := queryCount_step t opts.Interval orderNo opts.OnCheck
        (Event.onCheck (i + 1) s) rfl
      generalize (if opts.OnCheck = true then _ else _) = t' at hq ⊢
      have := ih (i + 1) t' (fun j h1 h2 => h j (by omega) (by omega))
      exact ⟨this.1, by omega⟩

/-- After `p` non-terminal results a terminal status ends the loop at once: it is
returned (with the closed-order error when it is `Closed`) after `p + 1` queries. -/
theorem pollLoop_reach (stub : QueryStub) (orderNo : Str) (opts : PollOptions)
    (s : OrderStatusData) (hterm : isTerminal s) :
    ∀ (p r : Nat) (i : Int) (t : Trace), p < r →
      (∀ j, queryCount t ≤ j → j < queryCount t + p → nonTerminal (stub j)) →
      stub (queryCount t + p) = .ok s →
      (pollLoop stub orderNo opts r i t).1 =
        (some s, if s.Status = OrderStatusPaidSuccess then none else some closedError) ∧
      queryCount (pollLoop stub orderNo opts r i t).2 = queryCount t + p + 1 := by
  intro p
  induction p with
  | zero =>
    intro r i t hr _ hs
    obtain ⟨r, rfl⟩ : ∃ r', r = r' + 1 := ⟨r - 1, by omega⟩
    rw [Nat.add_zero] at hs
    rw [pollLoop_ok stub orderNo opts r i t s hs]
    have hq := queryCount_step t opts.Interval orderNo opts.OnCheck
      (Event.onCheck (i + 1) s) rfl
    generalize (if opts.OnCheck = true then _ else _) = t' at hq ⊢
    by_cases h2 : s.Status = OrderStatusPaidSuccess
    · simp only [if_pos h2]; exact ⟨trivial, by omega⟩
    · have h3 : s.Status = OrderStatusClosed := hterm.resolve_left h2
      simp only [if_neg h2, if_pos h3]; exact ⟨trivial, by omega⟩
  | succ p ih =>
    intro r i t hr h hs
    obtain ⟨r, rfl⟩ : ∃ r', r = r' + 1 := ⟨r - 1, by omega⟩
    have h0 := h (queryCount t) (le_refl _) (by omega)
    cases hs0 : stub (queryCount t) with
    | error err =>
      rw [pollLoop_error stub orderNo opts r i t err hs0]
      have hq := queryCount_step t opts.Interval orderNo opts.OnError
        (Event.onError (i + 1) err) rfl
      generalize (if opts.OnError = true then _ else _) = t' at hq ⊢
      have := ih r (i + 1) t' (by omega)
        (fun j h1 h2 => h j (by omega) (by omega))
        (by rw [← hs]; congr 1; omega)
      exact ⟨this.1, by omega⟩
    | ok s0 =>
      rw [hs0] at h0
      simp only [nonTerminal, isTerminal, not_or] at h0
      rw [pollLoop_ok stub orderNo opts r i t s0 hs0]
      simp only [if_neg h0.1, if_neg h0.2]
      have hq := queryCount_step t opts.Interval orderNo opts.OnCheck
        (Event.onCheck (i + 1) s0) rfl
      generalize (if opts.OnCheck = true then _ else _) = t' at hq ⊢
      have := ih r (i + 1) t' (by omega)
        (fun j h1 h2 => h j (by omega) (by omega))
        (by rw [← hs]; congr 1; omega)
      exact ⟨this.1, by omega⟩

theorem expectedChecks_succ (stub : QueryStub) (a n : Nat) :
    expectedChecks stub a (n + 1) =
      (match stub a with
        | .ok s => [((a : Int) + 1, s)]
        | .error _ => []) ++ expectedChecks stub (a + 1) n := by
  simp only [expectedChecks, List.range'_succ, List.filterMap_cons]
  cases stub a <;> simp

theorem checkCalls_step_error (t : Trace) (d : Int) (orderNo : Str) (b : Bool) (i : Int)
    (err : Str) :
    checkCalls (if b then t ++ [Event.sleep d] ++ [Event.query orderNo] ++ [Event.onError i err]
      else t ++ [Event.sleep d] ++ [Event.query orderNo]) = checkCalls t := by
  have h1 : checkCalls [Event.sleep d] = [] := rfl
  have h2 : checkCalls [Event.query orderNo] = [] := rfl
  have h3 : checkCalls [Event.onError i err] = [] := rfl
  cases b
  · simp only [Bool.false_eq_true, if_false, checkCalls_append, h1, h2, List.append_nil]
  · simp only [if_true, checkCalls_append, h1, h2, h3, List.append_nil]

theorem checkCalls_step_ok (t : Trace) (d : Int) (orderNo : Str) (i : Int)
    (s : OrderStatusData) :
    checkCalls (t ++ [Event.sleep d] ++ [Event.query orderNo] ++ [Event.onCheck i s])
      = checkCalls t ++ [(i, s)] := by
  have h1 : checkCalls [Event.sleep d] = [] := rfl
  have h2 : checkCalls [Event.query orderNo] = [] := rfl
  have h3 : checkCalls [Event.onCheck i s] = [(i, s)] := rfl
  simp only [checkCalls_append, h1, h2, h3, List.append_nil]

/-- With the check callback set, the loop calls it once for every query that returned
a status record, terminal or not, and for no other query. -/
theorem pollLoop_checkCalls (stub : QueryStub) (orderNo : Str) (opts : PollOptions)
    (hc : opts.OnCheck = true) :
    ∀ (r : Nat) (i : Int) (t : Trace), i = (queryCount t : Int) →
      queryCount t ≤ queryCount (pollLoop stub orderNo opts r i t).2 ∧
      checkCalls (pollLoop stub orderNo opts r i t).2 =
        checkCalls t ++ expectedChecks stub (queryCount t)
          (queryCount (pollLoop stub orderNo opts r i t).2 - queryCount t) := by
  intro r
  induction r with
  | zero => intro i t _; simp [pollLoop, expectedChecks]
  | succ r ih =>
    intro i t hi
    subst hi
    cases hs : stub (queryCount t) with
    | error err =>
      rw [pollLoop_error stub orderNo opts r _ t err hs]
      have hq := queryCount_step t opts.Interval orderNo opts.OnError
        (Event.onError ((queryCount t : Int) + 1) err) rfl
      have hk := checkCalls_step_error t opts.Interval orderNo opts.OnError
        ((queryCount t : Int) + 1) err
      generalize (if opts.OnError = true then _ else _) = t' at hq hk ⊢
      obtain ⟨h1, h2⟩ := ih ((queryCount t : Int) + 1) t' (by rw [hq]; push_cast; rfl)
      generalize pollLoop stub orderNo opts r ((queryCount t : Int) + 1) t' = out at h1 h2 ⊢
      refine ⟨by omega, ?_⟩
      have hn : queryCount out.2 - queryCount t
          = (queryCount out.2 - (queryCount t + 1)) + 1 := by omega
      rw [hq] at h2
      rw [h2, hk, hn, expectedChecks_succ, hs]
      rfl
    | ok s =>
      rw [pollLoop_ok stub orderNo opts r _ t s hs]
      simp only [hc, if_true]
      have hq := queryCount_step t opts.Interval orderNo true
        (Event.onCheck ((queryCount t : Int) + 1) s) rfl
      simp only [if_true] at hq
      have hk := checkCalls_step_ok t opts.Interval orderNo ((queryCount t : Int) + 1) s
      generalize t ++ [Event.sleep opts.Interval] ++ [Event.query orderNo]
        ++ [Event.onCheck ((queryCount t : Int) + 1) s] = t' at hq hk ⊢
      have hone : expectedChecks stub (queryCount t) 1 = [((queryCount t : Int) + 1, s)] := by
        rw [expectedChecks_succ, hs]; rfl
      by_cases h2 : s.Status = OrderStatusPaidSuccess
      · simp only [if_pos h2]
        refine ⟨by omega, ?_⟩
        rw [hq, hk, Nat.add_sub_cancel_left, hone]
      · by_cases h3 : s.Status = OrderStatusClosed
        · simp only [if_neg h2, if_pos h3]
          refine ⟨by omega, ?_⟩
          rw [hq, hk, Nat.add_sub_cancel_left, hone]
        · simp only [if_neg h2, if_neg h3]
          obtain ⟨h1, h4⟩ := ih ((queryCount t : Int) + 1) t' (by rw [hq]; push_cast; rfl)
          generalize pollLoop stub orderNo opts r ((queryCount t : Int) + 1) t' = out
            at h1 h4 ⊢
          refine ⟨by omega, ?_⟩
          have hn : queryCount out.2 - queryCount t
              = (queryCount out.2 - (queryCount t + 1)) + 1 := by omega
          rw [hq] at h4
          rw [h4, hk, hn, expectedChecks_succ, hs, List.append_assoc]

/-! ### Defaulting of the options -/

theorem effectiveOptions_maxRetries (o : PollOptions) (h : o.MaxRetries ≠ 0) :
    (effectiveOptions (some o)).MaxRetries = o.MaxRetries := by
  simp only [effectiveOptions]
  split_ifs <;> simp_all

theorem effectiveOptions_zero (o : PollOptions) (h : o.MaxRetries = 0) :
    (effectiveOptions (some o)).MaxRetries = 12 := by
  simp only [effectiveOptions]
  split_ifs <;> simp_all

theorem effectiveOptions_onCheck (o : PollOptions) :
    (effectiveOptions (some o)).OnCheck = o.OnCheck := by
  simp only [effectiveOptions]
  split_ifs <;> rfl

theorem effectiveOptions_onError (o : PollOptions) :
    (effectiveOptions (some o)).OnError = o.OnError := by
  simp only [effectiveOptions]
  split_ifs <;> rfl

/-- Setting `MaxRetries` to 12 by hand is what the defaulting does to a zero. -/
theorem effectiveOptions_zero_eq (o : PollOptions) (h : o.MaxRetries = 0) :
    effectiveOptions (some o) = effectiveOptions (some { o with MaxRetries := 12 }) := by
  simp only [effectiveOptions, h]
  split_ifs <;> simp_all

/-! ### The two errors of `PollOrderStatus` -/

theorem closedError_head : closedError.head? = some 232 := by decide

theorem timeoutError_head (n : Int) : (timeoutError n).head? = some 230 := by
  have h : (lit "查询超时，已达到最大重试次数 ").head? = some 230 := by decide
  unfold timeoutError
  cases hl : lit "查询超时，已达到最大重试次数 " with
  | nil => rw [hl] at h; cases h
  | cons a rest => rw [hl] at h; simpa using h

theorem closedError_ne_timeoutError (n : Int) : closedError ≠ timeoutError n := by
  intro h
  have h1 := closedError_head
  rw [h, timeoutError_head] at h1
  cases h1

/-! ### The sample stubs -/

theorem stubNotPaid_nonTerminal : ∀ j, nonTerminal (stubNotPaid j) :=
  fun _ => (by decide : nonTerminal (.ok (sampleStatus OrderStatusNotPaid)))

theorem stubPaidThird_first_two : ∀ j, j + 1 < 3 → nonTerminal (stubPaidThird j) := by
  intro j hj
  have h2 : j < 2 := by omega
  simp only [stubPaidThird, if_pos h2]
  decide

/-! ### Header assignment -/

theorem headerKeys_distinct :
    lit "X-App-Id" ≠ lit "X-Timestamp" ∧ lit "X-App-Id" ≠ lit "X-Nonce" ∧
    lit "X-App-Id" ≠ lit "X-Sign" ∧ lit "X-Timestamp" ≠ lit "X-Nonce" ∧
    lit "X-Timestamp" ≠ lit "X-Sign" ∧ lit "X-Nonce" ≠ lit "X-Sign" := by
  decide

/-- The header map after the four `Set` calls of `setAuthHeaders`. -/
theorem four_sets (h : Header) (a t n s : Str) :
    let h' := headerSet (headerSet (headerSet (headerSet h (lit "X-App-Id") a)
      (lit "X-Timestamp") t) (lit "X-Nonce") n) (lit "X-Sign") s
    mapFind h' (lit "X-App-Id") = some [a] ∧
    mapFind h' (lit "X-Timestamp") = some [t] ∧
    mapFind h' (lit "X-Nonce") = some [n] ∧
    mapFind h' (lit "X-Sign") = some [s] ∧
    ∀ k, k ≠ lit "X-App-Id" → k ≠ lit "X-Timestamp" → k ≠ lit "X-Nonce" →
      k ≠ lit "X-Sign" → mapFind h' k = mapFind h k := by
  obtain ⟨h1, h2, h3, h4, h5, h6⟩ := headerKeys_distinct
  refine ⟨?_, ?_, ?_, ?_, ?_⟩
  · simp only [headerSet]
    rw [mapFind_mapSet_other _ _ _ _ h3, mapFind_mapSet_other _ _ _ _ h2,
      mapFind_mapSet_other _ _ _ _ h1, mapFind_mapSet_self]
  · simp only [headerSet]
    rw [mapFind_mapSet_other _ _ _ _ h5, mapFind_mapSet_other _ _ _ _ h4,
      mapFind_mapSet_self]
  · simp only [headerSet]
    rw [mapFind_mapSet_other _ _ _ _ h6, mapFind_mapSet_self]
  · simp only [headerSet]
    rw [mapFind_mapSet_self]
  · intro k k1 k2 k3 k4
    simp only [headerSet]
    rw [mapFind_mapSet_other _ _ _ _ k4, mapFind_mapSet_other _ _ _ _ k3,
      mapFind_mapSet_other _ _ _ _ k2, mapFind_mapSet_other _ _ _ _ k1]

/-- What `setAuthHeaders` returns once the nonce has been generated. -/
theorem setAuthHeaders_eq (hmacSHA256 : Str → Str → Str) (hexEncode : Str → Str)
    (now : Int) (draws : Nat → Nat) (c : Client) (req : Request) (body : Str) (n : Str)
    (hs : generateNonce draws 16 = some n) :
    setAuthHeaders hmacSHA256 hexEncode now draws c req body =
      some { req with
        Header := headerSet (headerSet (headerSet (headerSet req.Header
          (lit "X-App-Id") c.appID) (lit "X-Timestamp") (formatInt now)) (lit "X-Nonce") n)
          (lit "X-Sign") (generateSign hmacSHA256 hexEncode c
            [(lit "appId", c.appID), (lit "timestamp", formatInt now), (lit "nonce", n)]) } := by
  simp only [setAuthHeaders, hs]

/-! ## The claims -/

/-- C1: for every secret and every parameter mapping, `generateSign` returns
`hexEncode (HMAC-SHA256 (secret, canonical))`, where `canonical` joins with `&` the
`key=value` renderings of a list `es` that holds exactly the entries whose key is not
`"sign"` and whose value is not empty (`es` is a permutation of them), in strictly
ascending byte-wise order of key; it is the empty string when no entry remains. -/
theorem generateSign_canonical (hmacSHA256 : Str → Str → Str) (hexEncode : Str → Str)
    (c : Client) (params : Params) (hm : NodupKeys params) :
    generateSign hmacSHA256 hexEncode c params
        = hexEncode (hmacSHA256 c.appSecret (canonicalString params)) ∧
    canonicalString params
        = stringsJoin ((sortByKey (params.filter signed)).map renderPair) (lit "&") ∧
    (sortByKey (params.filter signed)).Perm
        (params.filter (fun kv => decide (kv.1 ≠ lit "sign") && decide (kv.2 ≠ []))) ∧
    (sortByKey (params.filter signed)).Pairwise (fun a b => strLess a.1 b.1 = true) ∧
    (params.filter signed = [] → canonicalString params = []) := by
  refine ⟨?_, rfl, sortByKey_perm _, sortByKey_strict _ (nodupKeys_filter _ _ hm), ?_⟩
  · simp only [generateSign, signString_eq_canonical params hm]
  · intro h
    simp [canonicalString, h, sortByKey, stringsJoin]

theorem generateSign_canonical_witness :
    NodupKeys [(lit "timestamp", lit "12"), (lit "appId", lit "a"), (lit "sign", lit "zz"),
      (lit "nonce", []), (lit "Nonce", lit "q")] ∧
    generateSign sampleMac id sampleClient
      [(lit "timestamp", lit "12"), (lit "appId", lit "a"), (lit "sign", lit "zz"),
        (lit "nonce", []), (lit "Nonce", lit "q")]
      = sampleMac sampleClient.appSecret (lit "Nonce=q&appId=a&timestamp=12") :=
  ⟨by decide,
    (generateSign_canonical sampleMac id sampleClient
      [(lit "timestamp", lit "12"), (lit "appId", lit "a"), (lit "sign", lit "zz"),
        (lit "nonce", []), (lit "Nonce", lit "q")] (by decide)).1.trans (by decide)⟩

/-- C2: for every secret and every two parameter mappings with the same key/value
pairs (keys distinct), one entry sequence being a permutation of the other,
`generateSign` returns the identical signature. -/
theorem generateSign_perm (hmacSHA256 : Str → Str → Str) (hexEncode : Str → Str)
    (c : Client) (m₁ m₂ : Params) (hm : NodupKeys m₁) (h : m₁.Perm m₂) :
    generateSign hmacSHA256 hexEncode c m₁ = generateSign hmacSHA256 hexEncode c m₂ := by
  simp only [generateSign, signString_perm m₁ m₂ hm h]

theorem generateSign_perm_witness :
    NodupKeys [(lit "appId", lit "a"), (lit "timestamp", lit "12"), (lit "nonce", lit "q")] ∧
    List.Perm [(lit "appId", lit "a"), (lit "timestamp", lit "12"), (lit "nonce", lit "q")]
      [(lit "timestamp", lit "12"), (lit "appId", lit "a"), (lit "nonce", lit "q")] ∧
    generateSign sampleMac id sampleClient
        [(lit "appId", lit "a"), (lit "timestamp", lit "12"), (lit "nonce", lit "q")]
      = generateSign sampleMac id sampleClient
        [(lit "timestamp", lit "12"), (lit "appId", lit "a"), (lit "nonce", lit "q")] :=
  ⟨by decide, List.Perm.swap _ _ _,
    generateSign_perm sampleMac id sampleClient _ _ (by decide) (List.Perm.swap _ _ _)⟩

/-- C3: for every secret, every parameter mapping `m` and every key `k` not in `m`,
`generateSign` of `m` extended with `k` mapped to the empty string (by the assignment
`m[k] = ""`, or as any map `m'` holding the entries of `m` and `(k, "")` in some
iteration order) equals `generateSign` of `m`. -/
theorem generateSign_empty_value (hmacSHA256 : Str → Str → Str) (hexEncode : Str → Str)
    (c : Client) (m : Params) (k : Str) (hm : NodupKeys m) (hk : k ∉ m.map Prod.fst) :
    generateSign hmacSHA256 hexEncode c (mapSet m k [])
        = generateSign hmacSHA256 hexEncode c m ∧
    ∀ m' : Params, m'.Perm ((k, []) :: m) →
      generateSign hmacSHA256 hexEncode c m' = generateSign hmacSHA256 hexEncode c m := by
  have hcons : NodupKeys ((k, []) :: m) := by
    simp only [NodupKeys, List.map_cons, List.nodup_cons]
    exact ⟨hk, hm⟩
  have key : ∀ m' : Params, m'.Perm ((k, []) :: m) → signString m' = signString m := by
    intro m' hp
    rw [← signString_perm _ _ hcons hp.symm, signString_cons_empty]
  refine ⟨?_, fun m' hp => by simp only [generateSign, key m' hp]⟩
  have hp : (mapSet m k []).Perm ((k, []) :: m) := by
    rw [mapSet_of_not_mem m k [] hk]
    exact List.perm_append_singleton _ _
  simp only [generateSign, key _ hp]

theorem generateSign_empty_value_witness :
    NodupKeys [(lit "appId", lit "a"), (lit "timestamp", lit "12")] ∧
    lit "nonce" ∉ List.map Prod.fst [(lit "appId", lit "a"), (lit "timestamp", lit "12")] ∧
    generateSign sampleMac id sampleClient
        (mapSet [(lit "appId", lit "a"), (lit "timestamp", lit "12")] (lit "nonce") [])
      = generateSign sampleMac id sampleClient
        [(lit "appId", lit "a"), (lit "timestamp", lit "12")] :=
  ⟨by decide, by decide,
    (generateSign_empty_value sampleMac id sampleClient
      [(lit "appId", lit "a"), (lit "timestamp", lit "12")] (lit "nonce")
      (by decide) (by decide)).1⟩

/-- C4: for every `MaxRetries = n > 0` and every query stub each of whose results is a
query error or a status other than `PaidSuccess` and `Closed`, `PollOrderStatus`
performs exactly `n` queries and then returns no status together with the timeout
error; a failed query is one of the `n` attempts and does not stop the loop. -/
theorem PollOrderStatus_timeout (stub : QueryStub) (orderNo : Str) (opts : PollOptions)
    (hn : 0 < opts.MaxRetries) (hs : ∀ j, nonTerminal (stub j)) :
    (PollOrderStatus stub orderNo (some opts)).1
        = (none, some (timeoutError opts.MaxRetries)) ∧
    (queryCount (PollOrderStatus stub orderNo (some opts)).2 : Int) = opts.MaxRetries := by
  have hm := effectiveOptions_maxRetries opts (by omega)
  have h := pollLoop_exhaust stub orderNo (effectiveOptions (some opts))
    (effectiveOptions (some opts)).MaxRetries.toNat 0 [] (fun j _ _ => hs j)
  simp only [PollOrderStatus]
  rw [hm] at h ⊢
  refine ⟨h.1, ?_⟩
  rw [h.2]
  have : queryCount ([] : Trace) = 0 := rfl
  omega

theorem PollOrderStatus_timeout_witness :
    (0 : Int) < (sampleOptions 3).MaxRetries ∧ (∀ j, nonTerminal (stubNotPaid j)) ∧
    (PollOrderStatus stubNotPaid (lit "X1") (some (sampleOptions 3))).1
        = (none, some (timeoutError 3)) ∧
    (queryCount (PollOrderStatus stubNotPaid (lit "X1") (some (sampleOptions 3))).2 : Int)
        = 3 :=
  ⟨by decide, stubNotPaid_nonTerminal,
    PollOrderStatus_timeout stubNotPaid (lit "X1") (sampleOptions 3) (by decide)
      stubNotPaid_nonTerminal⟩

/-- C5: for every `k` with `1 ≤ k ≤ MaxRetries` and every query stub whose first `k-1`
results are non-terminal (a non-terminal status, or a failed query) and whose `k`-th
result has status `PaidSuccess`, `PollOrderStatus` returns that `k`-th status record
with no error, and the whole run has made exactly `k` queries. -/
theorem PollOrderStatus_success (stub : QueryStub) (orderNo : Str) (opts : PollOptions)
    (k : Nat) (s : OrderStatusData) (hk1 : 1 ≤ k) (hk : (k : Int) ≤ opts.MaxRetries)
    (hpre : ∀ j, j + 1 < k → nonTerminal (stub j))
    (hs : stub (k - 1) = .ok s) (hpaid : s.Status = OrderStatusPaidSuccess) :
    (PollOrderStatus stub orderNo (some opts)).1 = (some s, none) ∧
    queryCount (PollOrderStatus stub orderNo (some opts)).2 = k := by
  have hm := effectiveOptions_maxRetries opts (by omega)
  have h0 : queryCount ([] : Trace) = 0 := rfl
  have h := pollLoop_reach stub orderNo (effectiveOptions (some opts)) s (Or.inl hpaid)
    (k - 1) (effectiveOptions (some opts)).MaxRetries.toNat 0 [] (by rw [hm]; omega)
    (fun j _ h2 => hpre j (by omega)) (by rw [h0, Nat.zero_add]; exact hs)
  simp only [PollOrderStatus]
  rw [if_pos hpaid] at h
  refine ⟨h.1, ?_⟩
  rw [h.2]; omega

theorem PollOrderStatus_success_witness :
    1 ≤ 3 ∧ ((3 : Nat) : Int) ≤ (sampleOptions 3).MaxRetries ∧
    (∀ j, j + 1 < 3 → nonTerminal (stubPaidThird j)) ∧
    stubPaidThird (3 - 1) = .ok (sampleStatus OrderStatusPaidSuccess) ∧
    (sampleStatus OrderStatusPaidSuccess).Status = OrderStatusPaidSuccess ∧
    (PollOrderStatus stubPaidThird (lit "X1") (some (sampleOptions 3))).1
        = (some (sampleStatus OrderStatusPaidSuccess), none) ∧
    queryCount (PollOrderStatus stubPaidThird (lit "X1") (some (sampleOptions 3))).2 = 3 :=
  ⟨by decide, by decide, stubPaidThird_first_two, rfl, rfl,
    PollOrderStatus_success stubPaidThird (lit "X1") (sampleOptions 3) 3
      (sampleStatus OrderStatusPaidSuccess) (by decide) (by decide) stubPaidThird_first_two rfl
      rfl⟩

/-- C6: for every query stub whose first result is a query error and whose second
result has status `Closed`, and every `MaxRetries ≥ 2`, `PollOrderStatus` (with the
error callback set) calls the error callback exactly once, for attempt 1 with that
error, performs exactly 2 queries, and returns the `Closed` status record together
with the closed-order error, which differs from the timeout error. -/
theorem PollOrderStatus_error_then_closed (stub : QueryStub) (orderNo : Str)
    (opts : PollOptions) (err : Str) (s : OrderStatusData)
    (hmax : 2 ≤ opts.MaxRetries) (hcb : opts.OnError = true)
    (h0 : stub 0 = .error err) (h1 : stub 1 = .ok s) (hclosed : s.Status = OrderStatusClosed) :
    (PollOrderStatus stub orderNo (some opts)).1 = (some s, some closedError) ∧
    closedError ≠ timeoutError opts.MaxRetries ∧
    errorCalls (PollOrderStatus stub orderNo (some opts)).2 = [(1, err)] ∧
    queryCount (PollOrderStatus stub orderNo (some opts)).2 = 2 ∧
    (queryCount (PollOrderStatus stub orderNo (some opts)).2 : Int) ≤ opts.MaxRetries := by
  have hm := effectiveOptions_maxRetries opts (by omega)
  have he := effectiveOptions_onError opts
  have hne : ¬ s.Status = OrderStatusPaidSuccess := by rw [hclosed]; decide
  obtain ⟨r, hr⟩ : ∃ r, (effectiveOptions (some opts)).MaxRetries.toNat = r + 2 :=
    ⟨opts.MaxRetries.toNat - 2, by rw [hm]; omega⟩
  have hrun : PollOrderStatus stub orderNo (some opts)
      = ((some s, some closedError),
          (if (effectiveOptions (some opts)).OnCheck then
            [Event.sleep (effectiveOptions (some opts)).Interval, Event.query orderNo,
              Event.onError 1 err,
              Event.sleep (effectiveOptions (some opts)).Interval, Event.query orderNo,
              Event.onCheck 2 s]
          else
            [Event.sleep (effectiveOptions (some opts)).Interval, Event.query orderNo,
              Event.onError 1 err,
              Event.sleep (effectiveOptions (some opts)).Interval, Event.query orderNo])) := by
    have hq1 : queryCount ([] ++ [Event.sleep (effectiveOptions (some opts)).Interval]
        ++ [Event.query orderNo] ++ [Event.onError (0 + 1) err]) = 1 := by
      simp only [queryCount_append]; rfl
    simp only [PollOrderStatus]
    rw [hr, pollLoop_error stub orderNo _ (r + 1) 0 [] err h0, he, hcb, if_pos rfl,
      pollLoop_ok stub orderNo _ r (0 + 1)
        ([] ++ [Event.sleep (effectiveOptions (some opts)).Interval] ++ [Event.query orderNo]
          ++ [Event.onError (0 + 1) err]) s (by rw [hq1]; exact h1),
      if_neg hne, if_pos hclosed]
    cases (effectiveOptions (some opts)).OnCheck <;> rfl
  rw [hrun]
  refine ⟨rfl, closedError_ne_timeoutError _, ?_, ?_, ?_⟩
  · cases (effectiveOptions (some opts)).OnCheck <;> rfl
  · cases (effectiveOptions (some opts)).OnCheck <;> rfl
  · have : queryCount (if (effectiveOptions (some opts)).OnCheck then
            [Event.sleep (effectiveOptions (some opts)).Interval, Event.query orderNo,
              Event.onError 1 err,
              Event.sleep (effectiveOptions (some opts)).Interval, Event.query orderNo,
              Event.onCheck 2 s]
          else
            [Event.sleep (effectiveOptions (some opts)).Interval, Event.query orderNo,
              Event.onError 1 err,
              Event.sleep (effectiveOptions (some opts)).Interval, Event.query orderNo]) = 2 := by
      cases (effectiveOptions (some opts)).OnCheck <;> rfl
    simp only [this]
    exact_mod_cast hmax

theorem PollOrderStatus_error_then_closed_witness :
    (2 : Int) ≤ (sampleOptions 12).MaxRetries ∧ (sampleOptions 12).OnError = true ∧
    stubErrorThenClosed 0 = .error (lit "connection refused") ∧
    stubErrorThenClosed 1 = .ok (sampleStatus OrderStatusClosed) ∧
    (sampleStatus OrderStatusClosed).Status = OrderStatusClosed ∧
    (PollOrderStatus stubErrorThenClosed (lit "X1") (some (sampleOptions 12))).1
        = (some (sampleStatus OrderStatusClosed), some closedError) ∧
    errorCalls (PollOrderStatus stubErrorThenClosed (lit "X1") (some (sampleOptions 12))).2
        = [(1, lit "connection refused")] ∧
    queryCount (PollOrderStatus stubErrorThenClosed (lit "X1") (some (sampleOptions 12))).2
        = 2 :=
  have h := PollOrderStatus_error_then_closed stubErrorThenClosed (lit "X1")
    (sampleOptions 12) (lit "connection refused") (sampleStatus OrderStatusClosed)
    (by decide) (by decide) rfl rfl rfl
  ⟨by decide, by decide, rfl, rfl, rfl, h.1, h.2.2.1, h.2.2.2.1⟩

/-- C7 (as amended): a `MaxRetries` of zero is replaced by 12, so that against a stub
that never returns a terminal status `PollOrderStatus` behaves as with
`MaxRetries = 12` and performs exactly 12 queries before the timeout error; a negative
`MaxRetries` is left as it is: no query is made and the timeout error is returned at
once. -/
theorem PollOrderStatus_zero_retries (stub : QueryStub) (orderNo : Str) (opts : PollOptions)
    (hs : ∀ j, nonTerminal (stub j)) :
    (opts.MaxRetries = 0 →
      PollOrderStatus stub orderNo (some opts)
          = PollOrderStatus stub orderNo (some { opts with MaxRetries := 12 }) ∧
      (PollOrderStatus stub orderNo (some opts)).1 = (none, some (timeoutError 12)) ∧
      queryCount (PollOrderStatus stub orderNo (some opts)).2 = 12) ∧
    (opts.MaxRetries < 0 →
      PollOrderStatus stub orderNo (some opts)
          = ((none, some (timeoutError opts.MaxRetries)), [])) := by
  constructor
  · intro h0
    have hm := effectiveOptions_zero opts h0
    have h := pollLoop_exhaust stub orderNo (effectiveOptions (some opts))
      (effectiveOptions (some opts)).MaxRetries.toNat 0 [] (fun j _ _ => hs j)
    refine ⟨?_, ?_, ?_⟩
    · simp only [PollOrderStatus, effectiveOptions_zero_eq opts h0]
    · simp only [PollOrderStatus]
      rw [hm] at h ⊢
      exact h.1
    · simp only [PollOrderStatus]
      rw [hm] at h ⊢
      rw [h.2]
      rfl
  · intro hneg
    have hm := effectiveOptions_maxRetries opts (by omega)
    have hz : (effectiveOptions (some opts)).MaxRetries.toNat = 0 := by rw [hm]; omega
    simp only [PollOrderStatus]
    rw [hz]
    simp only [pollLoop, hm]

theorem PollOrderStatus_zero_retries_witness :
    (∀ j, nonTerminal (stubNotPaid j)) ∧
    (PollOrderStatus stubNotPaid (lit "X1") (some (sampleOptions 0))).1
        = (none, some (timeoutError 12)) ∧
    queryCount (PollOrderStatus stubNotPaid (lit "X1") (some (sampleOptions 0))).2 = 12 :=
  ⟨stubNotPaid_nonTerminal,
    ((PollOrderStatus_zero_retries stubNotPaid (lit "X1") (sampleOptions 0)
      stubNotPaid_nonTerminal).1 rfl).2⟩

/-- C7 fails as stated: with `MaxRetries = -1` and a stub that never returns a terminal
status, `PollOrderStatus` makes no query at all, not 12. -/
theorem PollOrderStatus_negative_counterexample :
    (sampleOptions (-1)).MaxRetries ≤ 0 ∧ (∀ j, nonTerminal (stubNotPaid j)) ∧
    queryCount (PollOrderStatus stubNotPaid (lit "X1") (some (sampleOptions (-1)))).2 = 0 ∧
    queryCount (PollOrderStatus stubNotPaid (lit "X1") (some (sampleOptions 12))).2 = 12 ∧
    PollOrderStatus stubNotPaid (lit "X1") (some (sampleOptions (-1)))
      ≠ PollOrderStatus stubNotPaid (lit "X1") (some (sampleOptions 12)) := by
  refine ⟨by decide, stubNotPaid_nonTerminal, by decide, by decide, ?_⟩
  intro h
  have h2 := congrArg (fun r => queryCount r.2) h
  revert h2
  decide

/-- C8 (as amended): during `PollOrderStatus` the check callback, when set, is called
exactly once for every query that returned a status record, with the attempt number
and that record, whether the status is terminal or not, and never for a query that
failed; a terminal status is thus reported through the callback as well as through the
return value. -/
theorem PollOrderStatus_checkCalls (stub : QueryStub) (orderNo : Str) (opts : PollOptions)
    (hc : opts.OnCheck = true) :
    checkCalls (PollOrderStatus stub orderNo (some opts)).2
      = expectedChecks stub 0 (queryCount (PollOrderStatus stub orderNo (some opts)).2) := by
  have h := (pollLoop_checkCalls stub orderNo (effectiveOptions (some opts))
    (by rw [effectiveOptions_onCheck, hc])
    (effectiveOptions (some opts)).MaxRetries.toNat 0 [] rfl).2
  simpa [PollOrderStatus, checkCalls, queryCount] using h

theorem PollOrderStatus_checkCalls_witness :
    (sampleOptions 3).OnCheck = true ∧
    checkCalls (PollOrderStatus stubPaidThird (lit "X1") (some (sampleOptions 3))).2
      = [(1, sampleStatus OrderStatusNotPaid), (2, sampleStatus OrderStatusNotPaid),
          (3, sampleStatus OrderStatusPaidSuccess)] :=
  ⟨rfl, (PollOrderStatus_checkCalls stubPaidThird (lit "X1") (sampleOptions 3) rfl).trans
    (by decide)⟩

/-- C8 fails as stated: with a stub returning `NotPaid`, `NotPaid`, `PaidSuccess` the
check callback is called three times, not twice, and the third call carries the
terminal status `PaidSuccess`. -/
theorem PollOrderStatus_checkCalls_counterexample :
    (checkCalls (PollOrderStatus stubPaidThird (lit "X1") (some (sampleOptions 3))).2).length
      = 3 ∧
    (3, sampleStatus OrderStatusPaidSuccess)
      ∈ checkCalls (PollOrderStatus stubPaidThird (lit "X1") (some (sampleOptions 3))).2 ∧
    isTerminal (sampleStatus OrderStatusPaidSuccess) ∧
    ¬ ((checkCalls (PollOrderStatus stubPaidThird (lit "X1")
          (some (sampleOptions 3))).2).length = 2 ∧
        ∀ call ∈ checkCalls (PollOrderStatus stubPaidThird (lit "X1")
          (some (sampleOptions 3))).2, ¬ isTerminal call.2) := by
  decide

/-- C9 (as amended): for every length `n` with `0 ≤ n ≤ maxAlloc` (the allocation
limit of `make`) and every outcome of the random source with each draw in `0..61`,
`generateNonce n` returns (neither `make` nor the charset indexing panics) a string of
exactly `n` characters, each one of `a-z`, `A-Z`, `0-9`; for a length above `maxAlloc`
it panics in `make`; and the nonce that `setAuthHeaders` attaches as `X-Nonce` has
exactly 16 such characters. -/
theorem generateNonce_spec (draws : Nat → Nat) (length : Int) (hl : 0 ≤ length)
    (hmax : length ≤ maxAlloc) (hd : ∀ i, draws i < 62) :
    (∃ s : Str, generateNonce draws length = some s ∧ (s.length : Int) = length ∧
      ∀ b ∈ s, isAlnum b) ∧
    (∀ n : Int, maxAlloc < n → generateNonce draws n = none) ∧
    ∀ (hmacSHA256 : Str → Str → Str) (hexEncode : Str → Str) (now : Int) (c : Client)
      (req : Request) (body : Str),
      ∃ (req' : Request) (nonce : Str),
        setAuthHeaders hmacSHA256 hexEncode now draws c req body = some req' ∧
        mapFind req'.Header (lit "X-Nonce") = some [nonce] ∧
        nonce.length = 16 ∧ ∀ b ∈ nonce, isAlnum b := by
  refine ⟨?_, fun n hn => generateNonce_too_long draws n hn, ?_⟩
  · obtain ⟨s, hs, hlen, hall⟩ := generateNonce_ok draws hd length hl hmax
    exact ⟨s, hs, by rw [hlen]; omega, hall⟩
  · intro hmacSHA256 hexEncode now c req body
    obtain ⟨nonce, hs, hlen, hall⟩ :=
      generateNonce_ok draws hd 16 (by decide) (by decide)
    exact ⟨_, nonce, setAuthHeaders_eq hmacSHA256 hexEncode now draws c req body nonce hs,
      (four_sets req.Header _ _ _ _).2.2.1, by simpa using hlen, hall⟩

theorem generateNonce_spec_witness :
    (0 : Int) ≤ 16 ∧ (16 : Int) ≤ maxAlloc ∧ (∀ i, sampleDraws i < 62) ∧
    ∃ s : Str, generateNonce sampleDraws 16 = some s ∧ (s.length : Int) = 16 ∧
      ∀ b ∈ s, isAlnum b :=
  ⟨by decide, by decide, fun i => Nat.mod_lt _ (by decide),
    (generateNonce_spec sampleDraws 16 (by decide) (by decide)
      (fun i => Nat.mod_lt _ (by decide))).1⟩

/-- C9 fails as stated: the length `1 << 62` is not negative and every draw lies in
`0..61`, yet `generateNonce` returns no string: `make([]byte, 1 << 62)` panics with
`makeslice: len out of range`. -/
theorem generateNonce_huge_counterexample :
    (0 : Int) ≤ 4611686018427387904 ∧ (∀ i, sampleDraws i < 62) ∧
    generateNonce sampleDraws 4611686018427387904 = none ∧
    ¬ ∃ s : Str, generateNonce sampleDraws 4611686018427387904 = some s ∧
      (s.length : Int) = 4611686018427387904 ∧ ∀ b ∈ s, isAlnum b := by
  have hnone : generateNonce sampleDraws 4611686018427387904 = none := by
    simp only [generateNonce, if_pos (Or.inr (by decide : maxAlloc < 4611686018427387904))]
  refine ⟨by decide, fun i => Nat.mod_lt _ (by decide), hnone, ?_⟩
  rintro ⟨s, hs, _⟩
  rw [hnone] at hs
  cases hs

/-- C10: for every client, clock reading and random source (with draws inside the
charset), `setAuthHeaders` sets exactly the four headers `X-App-Id = appId`,
`X-Timestamp = t`, `X-Nonce = n` and `X-Sign = generateSign {appId, timestamp: t,
nonce: n}`, where `t` is the decimal timestamp and `n` the generated nonce, and leaves
every other header and the rest of the request as they were; the signature depends on
`(secret, appId, t, n)` alone, so a request with another body, other headers or
another URL, sent by a client with the same `appId` and secret, receives the same
`X-Sign`. -/
theorem setAuthHeaders_spec (hmacSHA256 : Str → Str → Str) (hexEncode : Str → Str)
    (now : Int) (draws : Nat → Nat) (c : Client) (req : Request) (body : Str)
    (hd : ∀ i, draws i < 62) :
    ∃ (req' : Request) (n : Str),
      generateNonce draws 16 = some n ∧
      setAuthHeaders hmacSHA256 hexEncode now draws c req body = some req' ∧
      mapFind req'.Header (lit "X-App-Id") = some [c.appID] ∧
      mapFind req'.Header (lit "X-Timestamp") = some [formatInt now] ∧
      mapFind req'.Header (lit "X-Nonce") = some [n] ∧
      mapFind req'.Header (lit "X-Sign") = some [generateSign hmacSHA256 hexEncode c
        [(lit "appId", c.appID), (lit "timestamp", formatInt now), (lit "nonce", n)]] ∧
      (∀ k, k ≠ lit "X-App-Id" → k ≠ lit "X-Timestamp" → k ≠ lit "X-Nonce" →
        k ≠ lit "X-Sign" → mapFind req'.Header k = mapFind req.Header k) ∧
      req'.Method = req.Method ∧ req'.URL = req.URL ∧ req'.Body = req.Body ∧
      ∀ (c₂ : Client) (req₂ : Request) (body₂ : Str),
        c₂.appSecret = c.appSecret → c₂.appID = c.appID →
        ∃ req₂' : Request,
          setAuthHeaders hmacSHA256 hexEncode now draws c₂ req₂ body₂ = some req₂' ∧
          mapFind req₂'.Header (lit "X-Sign") = mapFind req'.Header (lit "X-Sign") := by
  obtain ⟨n, hs, _, _⟩ := generateNonce_ok draws hd 16 (by decide) (by decide)
  have h4 := four_sets req.Header c.appID (formatInt now) n
    (generateSign hmacSHA256 hexEncode c
      [(lit "appId", c.appID), (lit "timestamp", formatInt now), (lit "nonce", n)])
  refine ⟨_, n, hs, setAuthHeaders_eq hmacSHA256 hexEncode now draws c req body n hs,
    h4.1, h4.2.1, h4.2.2.1, h4.2.2.2.1, h4.2.2.2.2, rfl, rfl, rfl, ?_⟩
  intro c₂ req₂ body₂ hsec hid
  refine ⟨_, setAuthHeaders_eq hmacSHA256 hexEncode now draws c₂ req₂ body₂ n hs, ?_⟩
  have h4' := four_sets req₂.Header c₂.appID (formatInt now) n
    (generateSign hmacSHA256 hexEncode c₂
      [(lit "appId", c₂.appID), (lit "timestamp", formatInt now), (lit "nonce", n)])
  rw [h4'.2.2.2.1, h4.2.2.2.1]
  simp only [generateSign, hsec, hid]

theorem setAuthHeaders_spec_witness :
    (∀ i, sampleDraws i < 62) ∧
    ∃ (req' : Request) (n : Str),
      generateNonce sampleDraws 16 = some n ∧
      setAuthHeaders sampleMac id 1700000000 sampleDraws sampleClient sampleRequest
        (lit "body") = some req' ∧
      mapFind req'.Header (lit "X-App-Id") = some [sampleClient.appID] ∧
      mapFind req'.Header (lit "X-Timestamp") = some [lit "1700000000"] ∧
      mapFind req'.Header (lit "X-Nonce") = some [n] :=
  match setAuthHeaders_spec sampleMac id 1700000000 sampleDraws sampleClient sampleRequest
    (lit "body") (fun i => Nat.mod_lt _ (by decide)) with
  | ⟨req', n, h1, h2, h3, h4, h5, _⟩ =>
    ⟨fun i => Nat.mod_lt _ (by decide), req', n, h1, h2, h3, h4.trans (by decide), h5⟩

end PaymentSDK
